import Mathlib

/-!
# Rank Synchronization Engine — verification development

Shallow embedding of the core of the `ranking-checker` repository
(`src/app.py`, `src/pages/lolc_rank_tracker.py`,
`src/pages/Update_All_domains.py`, `src/pages/Domain_Selector.py`):
the position formatter, the ranking client with retry, the snapshot
differ (improvement markers, best-position highlighting), the value-row
builder and the multi-domain orchestrator, with theorems checking the
specification's statements about them.

Conventions of the embedding:
* Python `None`-able integers become `Option Nat`; Python truthiness of
  an integer `position` is the test `p ≠ 0` on the wrapped value.
* The external ranking API is an oracle `Nat → FetchOutcome` giving, for
  each attempt number, either a parsed organic-result list or a
  transport/non-2xx failure (`requests.exceptions.RequestException`).
* Python dicts built by assignment in list order are association lists;
  `dictGet` is `dict.get(key, default)`.
* Strings are Lean `String`; Python's substring test `a in b` is
  `charsContain` on character lists; character code points are `Nat`.
-/

/-- `MAX_RETRIES = 3` (lolc_rank_tracker.py line 20, Update_All_domains.py line 21). -/
def MAX_RETRIES : Nat := 3

/-- `GREEN_COLOR` (lolc_rank_tracker.py line 23), as RGB numerators over 255. -/
def GREEN_COLOR : Nat × Nat × Nat := (183, 215, 168)

/-- `YELLOW_COLOR` (lolc_rank_tracker.py line 24), as RGB numerators over 255. -/
def YELLOW_COLOR : Nat × Nat × Nat := (255, 235, 156)

/-- One organic search result from the ranking API: a 1-based position and a URL
(`res["position"]`, `res["link"]`). -/
structure SearchResult where
  position : Nat
  link : String
deriving DecidableEq, Repr

/-- Outcome of one HTTP attempt: a parsed body (`data.get("organic", [])`) or a
`RequestException` (transport failure / `raise_for_status` on non-2xx). -/
inductive FetchOutcome where
  | ok (rankings : List SearchResult)
  | fail
deriving DecidableEq, Repr

/-- `needle` occurs at the very start of `hay` (character-list comparison). -/
def charsStartWith : List Char → List Char → Bool
  | [], _ => true
  | _ :: _, [] => false
  | a :: as, b :: bs => a = b && charsStartWith as bs

/-- Python's substring test `needle in hay`, on character lists. -/
def charsContain (needle : List Char) : List Char → Bool
  | [] => charsStartWith needle []
  | c :: rest => charsStartWith needle (c :: rest) || charsContain needle rest

/-- Python's substring test `a in b` on strings. -/
def strContains (hay needle : String) : Bool :=
  charsContain needle.data hay.data

/-- `dict.get(key, default)` for an association list built in insertion order. -/
def dictGet {α : Type} (l : List (String × α)) (k : String) (dflt : α) : α :=
  match l.find? (fun e => e.1 = k) with
  | some e => e.2
  | none => dflt

/-- The position formatter (lolc_rank_tracker.py lines 44-46):
`page_number = ((position - 1) // 10) + 1`, `position_in_page = ((position - 1) % 10) + 1`,
label `f"Page {page_number} Rank {position_in_page}"`. -/
def pageRankLabel (position : Nat) : String :=
  "Page " ++ toString ((position - 1) / 10 + 1) ++ " Rank " ++ toString ((position - 1) % 10 + 1)

/-- `next((res["position"] for res in rankings if target_url in res["link"]), None)`
(lolc_rank_tracker.py line 42): position of the first result whose URL contains
the target as a substring. -/
def firstMatchPosition (target : String) (rankings : List SearchResult) : Option Nat :=
  (rankings.find? (fun res => strContains res.link target)).map (fun res => res.position)

/-- Per-target resolution on a successful response (lolc_rank_tracker.py lines 42-48,
identical in Update_All_domains.py lines 148-154 and app.py lines 30-39):
`if position:` keeps a truthy position and formats it, otherwise `(None, "Not Ranked")`. -/
def resolveTarget (rankings : List SearchResult) (target : String) : Option Nat × String :=
  match firstMatchPosition target rankings with
  | some p => if p ≠ 0 then (some p, pageRankLabel p) else (none, "Not Ranked")
  | none => (none, "Not Ranked")

/-- Retry loop of `check_ranking` (lolc_rank_tracker.py lines 33-57), on the attempts
still remaining. On success it builds the per-target dict; on the last failed attempt
it returns `(None, "Error")` for every target; in between it sleeps and retries. -/
def checkRankingLoop (outcome : Nat → FetchOutcome) (targets : List String) :
    Nat → Nat → List (String × (Option Nat × String))
  | 0, _ => []
  | fuel + 1, attempt =>
    match outcome attempt with
    | .ok rankings => targets.map (fun t => (t, resolveTarget rankings t))
    | .fail =>
      if fuel = 0 then targets.map (fun t => (t, (none, "Error")))
      else checkRankingLoop outcome targets fuel (attempt + 1)

/-- `check_ranking(api_key, keyword, target_urls)` of lolc_rank_tracker.py, with the
network abstracted into the per-attempt oracle `outcome`. -/
def check_ranking (outcome : Nat → FetchOutcome) (targets : List String) :
    List (String × (Option Nat × String)) :=
  checkRankingLoop outcome targets MAX_RETRIES 0

/-- Numeric value of an ASCII digit character. -/
def digitVal (c : Char) : Nat := c.toNat - 48

/-- `int(...)` on a run of decimal digit characters. -/
def natOfDigits (ds : List Char) : Nat := ds.foldl (fun a c => 10 * a + digitVal c) 0

/-- Attempt to match the regex `Rank (\d+)` at the head of the character list:
literal `Rank ` followed by a maximal nonempty digit run (the capture group). -/
def rankMatchAt : List Char → Option Nat
  | 'R' :: 'a' :: 'n' :: 'k' :: ' ' :: rest =>
    let ds := rest.takeWhile (fun c => c.isDigit)
    if ds.isEmpty then none else some (natOfDigits ds)
  | _ => none

/-- `re.search(r'Rank (\d+)', text)` (lolc_rank_tracker.py line 205): leftmost
match of `Rank ` + digits, returning `int` of the captured digit run. -/
def searchRankNumber : List Char → Option Nat
  | [] => none
  | c :: rest =>
    match rankMatchAt (c :: rest) with
    | some n => some n
    | none => searchRankNumber rest

/-- Reference-cell update (lolc_rank_tracker.py lines 201-209, same logic in
Domain_Selector.py lines 246-253 and Update_All_domains.py lines 257-264):
starting from the freshly formatted `new_rank_text`, append `" ↑"` when the old
cell text is nonempty, contains `"Rank"`, the regex extracts an old rank, the
new position is truthy, and the new position is strictly below the extracted
number. -/
def refCellLabel (newPosition : Option Nat) (newRankText : String) (oldRefRankText : String) : String :=
  if oldRefRankText ≠ "" ∧ strContains oldRefRankText "Rank" = true then
    match searchRankNumber oldRefRankText.data, newPosition with
    | some oldRank, some p =>
      if p ≠ 0 ∧ p < oldRank then newRankText ++ " ↑" else newRankText
    | _, _ => newRankText
  else newRankText

/-- Value cells of one keyword row (lolc_rank_tracker.py lines 198-222, value part):
for each domain, `rankings.get(domain, (None, "Not Ranked"))`, with the
reference-domain cell passed through the improvement-marker logic. -/
def rowLabels (rankings : List (String × (Option Nat × String))) (domains : List String)
    (refDom : String) (oldRefText : String) : List String :=
  domains.map (fun d =>
    let r := dictGet rankings d (none, "Not Ranked")
    if d = refDom then refCellLabel r.1 r.2 oldRefText else r.2)

/-- The `new_data` block written back by `update_google_sheet`
(lolc_rank_tracker.py lines 180-226): one row per keyword, in keyword order,
each row `[keyword] ++ one label per domain`. `prevRef kw` is
`previous_data.get(keyword, [])[reference_domain_index]` when the keyword was in
the previous snapshot, `""` otherwise. -/
def newData (outcome : String → Nat → FetchOutcome) (domains : List String) (refDom : String)
    (prevRef : String → String) (keywords : List String) : List (List String) :=
  keywords.map (fun kw =>
    kw :: rowLabels (check_ranking (outcome kw) domains) domains refDom (prevRef kw))

/-- The best-position fold of `update_google_sheet` (lolc_rank_tracker.py
lines 187-195): running over the domains' positions in column order with
`best_position = float('inf')`, `best_domain_index = None`, updating on
`if position and position < best_position`. The accumulator `none` stands for
`(inf, None)`. -/
def bestDomainFold : List (Option Nat) → Nat → Option (Nat × Nat) → Option (Nat × Nat)
  | [], _, acc => acc
  | p :: rest, j, acc =>
    let acc' :=
      match p with
      | some q =>
        match acc with
        | none => if q ≠ 0 then some (q, j) else acc
        | some (b, _) => if q ≠ 0 ∧ q < b then some (q, j) else acc
      | none => acc
    bestDomainFold rest (j + 1) acc'

/-- `(best_position, best_domain_index)` after the fold, `none` when no domain
has a truthy position. -/
def bestDomain (ps : List (Option Nat)) : Option (Nat × Nat) :=
  bestDomainFold ps 0 none

/-- One entry of `cells_to_format`: 0-based sheet row and column plus a color
(lolc_rank_tracker.py lines 212-220). -/
structure CellFormat where
  row : Nat
  col : Nat
  color : Nat × Nat × Nat
deriving DecidableEq, Repr

/-- Formatting cells emitted for one domain column `j` of keyword row `i`
(lolc_rank_tracker.py lines 201-220): the reference domain first gets a yellow
cell which is overwritten to green when it is also the best (`cells_to_format[-1]["color"]
= GREEN_COLOR`); a non-reference best domain gets a green cell; others get none. -/
def cellsForDomain (refDom d : String) (best : Option Nat) (i j : Nat) : List CellFormat :=
  if d = refDom then
    let cell : CellFormat := ⟨i + 1, j + 1, YELLOW_COLOR⟩
    let cell := if best = some j then { cell with color := GREEN_COLOR } else cell
    [cell]
  else if best = some j then [⟨i + 1, j + 1, GREEN_COLOR⟩] else []

/-- Formatting cells appended while walking the domain columns of keyword row `i`
starting at column index `j`. -/
def cellsForRowFold (refDom : String) (best : Option Nat) (i : Nat) :
    List String → Nat → List CellFormat
  | [], _ => []
  | d :: rest, j => cellsForDomain refDom d best i j ++ cellsForRowFold refDom best i rest (j + 1)

/-- All `cells_to_format` entries contributed by keyword row `i`. -/
def cellsForRow (domains : List String) (refDom : String) (best : Option Nat) (i : Nat) :
    List CellFormat :=
  cellsForRowFold refDom best i domains 0

/-- Result of one domain's pipeline as the orchestrator sees it
(Update_All_domains.py lines 312-320): `update_single_domain` returned a bool,
or `future.result()` raised. -/
inductive JobOutcome where
  | ok (succeeded : Bool)
  | exn (msg : String)
deriving DecidableEq, Repr

/-- Aggregation of `update_all_domains` (Update_All_domains.py lines 283-320):
each domain lands in `domains_processed` when its job returned `True`, in
`domains_failed` when it returned `False` or raised; no outcome aborts the loop. -/
def update_all_domains (run : String → JobOutcome) (domains : List String) :
    List String × List String :=
  domains.foldl
    (fun acc d =>
      match run d with
      | .ok true => (acc.1 ++ [d], acc.2)
      | .ok false => (acc.1, acc.2 ++ [d])
      | .exn _ => (acc.1, acc.2 ++ [d]))
    ([], [])

/-- Retry loop for one keyword of the batched client (Update_All_domains.py
lines 141-164), instrumented with the list of keywords sent upstream (one entry
per HTTP request issued). -/
def batchKeywordFetch (outcome : Nat → FetchOutcome) (kw target : String) :
    Nat → Nat → (Option Nat × String) × List String
  | 0, _ => ((none, "Error"), [])
  | fuel + 1, attempt =>
    match outcome attempt with
    | .ok rankings => (resolveTarget rankings target, [kw])
    | .fail =>
      if fuel = 0 then ((none, "Error"), [kw])
      else
        let r := batchKeywordFetch outcome kw target fuel (attempt + 1)
        (r.1, kw :: r.2)

/-- `check_ranking(api_key, keywords, target_url)` of Update_All_domains.py
(lines 124-169): an empty keyword is mapped to `(None, "Empty Keyword")` with
`continue` (no request); every other keyword runs the retry loop. Returns the
results dict (as an association list in assignment order) paired with the
instrumented log of keywords sent to the API. -/
def check_ranking_batch (outcome : String → Nat → FetchOutcome) (keywords : List String)
    (target : String) : List (String × (Option Nat × String)) × List String :=
  keywords.foldl
    (fun acc kw =>
      if kw = "" then (acc.1 ++ [(kw, (none, "Empty Keyword"))], acc.2)
      else
        let r := batchKeywordFetch (outcome kw) kw target MAX_RETRIES 0
        (acc.1 ++ [(kw, r.1)], acc.2 ++ r.2))
    ([], [])

/-- Code point of `chr(65 + domain_col_index)` (Update_All_domains.py line 269). -/
def colLetterCode (i : Nat) : Nat := 65 + i

/-- The column character itself, for concrete evaluation. -/
def colLetter (i : Nat) : Char := Char.ofNat (colLetterCode i)

/-- A single character is a well-formed A1-notation column letter exactly when
it is an uppercase ASCII letter `A`..`Z` (code points 65..90). -/
def isUpperAZCode (c : Nat) : Bool := 65 ≤ c && c ≤ 90

/-- The A1 range string `f'{sheet.title}!{chr(65 + domain_col_index)}{row_num}'`
(Update_All_domains.py line 269). -/
def batchUpdateRange (title : String) (i rowNum : Nat) : String :=
  title ++ "!" ++ (colLetter i).toString ++ toString rowNum

/-! ## Theorems -/

example : pageRankLabel 13 = "Page 2 Rank 3" := by decide
example : pageRankLabel 100 = "Page 10 Rank 10" := by rfl
example : firstMatchPosition "kia.lk" [⟨1, "https://www.wikia.lk/x"⟩] = some 1 := by decide
example : check_ranking (fun _ => .fail) ["a.com", "b.com"] =
    [("a.com", (none, "Error")), ("b.com", (none, "Error"))] := by decide
example : searchRankNumber "Page 2 Rank 3".data = some 3 := by decide
example : searchRankNumber "Not Ranked".data = none := by decide
example : searchRankNumber "Page 1 Rank 5 ↑".data = some 5 := by decide
example : refCellLabel (some 5) "Page 1 Rank 5" "Page 2 Rank 3" = "Page 1 Rank 5" := by decide
example : refCellLabel (some 2) "Page 1 Rank 2" "Page 2 Rank 3" = "Page 1 Rank 2 ↑" := by decide

/-- C1, counterexample: for the reference domain with previous cell text
`"Page 2 Rank 3"` and a fresh fetch placing it at position 5, the pipeline
produces the label `"Page 1 Rank 5"` WITHOUT the upward-arrow marker — the code
compares the new absolute position 5 against the parsed in-page number 3
(`re.search(r'Rank (\d+)')` on the old text), not against the absolute
position 13, and 5 < 3 fails — contradicting the claimed `"Page 1 Rank 5 ↑"`. -/
theorem c1_counterexample :
    rowLabels
        (check_ranking (fun _ => .ok [⟨5, "https://www.lolcfinance.com/home"⟩])
          ["lolcfinance.com"])
        ["lolcfinance.com"] "lolcfinance.com" "Page 2 Rank 3" = ["Page 1 Rank 5"] ∧
    "Page 1 Rank 5" ≠ "Page 1 Rank 5 ↑" := by decide

/-- General form of the improvement-marker rule: with a nonempty old text
containing `"Rank"` from which the regex extracts `r`, and a truthy new
position `p`, the marker is appended exactly when `p < r`. -/
theorem refCellLabel_marker_rule (old base : String) (r p : Nat)
    (hsearch : searchRankNumber old.data = some r)
    (hne : old ≠ "") (hc : strContains old "Rank" = true) (hp : 1 ≤ p) :
    refCellLabel (some p) base old = if p < r then base ++ " ↑" else base := by
  have hp0 : p ≠ 0 := by omega
  unfold refCellLabel
  rw [if_pos ⟨hne, hc⟩, hsearch]
  show (if p ≠ 0 ∧ p < r then base ++ " ↑" else base) = _
  by_cases h : p < r
  · rw [if_pos ⟨hp0, h⟩, if_pos h]
  · rw [if_neg (fun hh => h hh.2), if_neg h]

/-- C1, amended: for the reference domain, when the previous cell text is
nonempty, contains `"Rank"`, and the regex extracts the number `r` (the in-page
rank written after `Rank `, not the absolute position), and the new position `p`
is present (truthy), the marker is appended exactly when `p < r`. In particular
for previous label `"Page 2 Rank 3"` the extracted number is 3, so new position 5
yields `"Page 1 Rank 5"` with no marker, and new position 20 also gets no marker. -/
theorem c1_marker_uses_inpage_rank (old base : String) (r p : Nat)
    (hsearch : searchRankNumber old.data = some r)
    (hne : old ≠ "") (hc : strContains old "Rank" = true) (hp : 1 ≤ p) :
    refCellLabel (some p) base old = if p < r then base ++ " ↑" else base :=
  refCellLabel_marker_rule old base r p hsearch hne hc hp

/-- Witness for `c1_marker_uses_inpage_rank` at the claim's concrete inputs:
old label `"Page 2 Rank 3"` (extracted number 3) with new positions 5, 2 and 20. -/
theorem c1_marker_witness :
    (refCellLabel (some 5) "Page 1 Rank 5" "Page 2 Rank 3" =
      if 5 < 3 then "Page 1 Rank 5" ++ " ↑" else "Page 1 Rank 5") ∧
    (refCellLabel (some 2) "Page 1 Rank 2" "Page 2 Rank 3" =
      if 2 < 3 then "Page 1 Rank 2" ++ " ↑" else "Page 1 Rank 2") ∧
    (refCellLabel (some 20) "Page 2 Rank 10" "Page 2 Rank 3" =
      if 20 < 3 then "Page 2 Rank 10" ++ " ↑" else "Page 2 Rank 10") :=
  ⟨c1_marker_uses_inpage_rank "Page 2 Rank 3" "Page 1 Rank 5" 3 5 (by decide) (by decide)
      (by decide) (by decide),
   c1_marker_uses_inpage_rank "Page 2 Rank 3" "Page 1 Rank 2" 3 2 (by decide) (by decide)
      (by decide) (by decide),
   c1_marker_uses_inpage_rank "Page 2 Rank 3" "Page 2 Rank 10" 3 20 (by decide) (by decide)
      (by decide) (by decide)⟩

set_option maxRecDepth 10000 in
/-- For every position in 1..100, the produced label carries `Rank ` followed by
the in-page rank as its only regex match, with or without an appended marker,
contains `"Rank"`, and is nonempty. -/
theorem pageRankLabel_facts : ∀ p : Nat, p < 101 → 0 < p →
    (searchRankNumber (pageRankLabel p).data = some ((p - 1) % 10 + 1) ∧
     searchRankNumber (pageRankLabel p ++ " ↑").data = some ((p - 1) % 10 + 1) ∧
     strContains (pageRankLabel p) "Rank" = true ∧
     strContains (pageRankLabel p ++ " ↑") "Rank" = true ∧
     pageRankLabel p ≠ "" ∧ pageRankLabel p ++ " ↑" ≠ "") := by decide

/-- With an absent new position the reference cell gets no marker. -/
theorem refCellLabel_none (t old : String) : refCellLabel none t old = t := by
  unfold refCellLabel
  split
  · cases searchRankNumber old.data <;> rfl
  · rfl

/-- The reference cell is always the fresh label, with or without the marker. -/
theorem refCellLabel_cases (np : Option Nat) (t old : String) :
    refCellLabel np t old = t ∨ refCellLabel np t old = t ++ " ↑" := by
  unfold refCellLabel
  split
  · cases searchRankNumber old.data with
    | none => cases np <;> exact Or.inl rfl
    | some r =>
      cases np with
      | none => exact Or.inl rfl
      | some p =>
        show (if p ≠ 0 ∧ p < r then t ++ " ↑" else t) = t ∨
          (if p ≠ 0 ∧ p < r then t ++ " ↑" else t) = t ++ " ↑"
        by_cases h : p ≠ 0 ∧ p < r
        · rw [if_pos h]; exact Or.inr rfl
        · rw [if_neg h]; exact Or.inl rfl
  · exact Or.inl rfl

/-- Applying the reference-cell logic to a cell this run just wrote never
appends a marker: the extracted number is the in-page rank of the current
position, which the position can never strictly undercut. -/
theorem refCellLabel_second_run (p : Nat) (old : String) (h1 : 1 ≤ p) (h2 : p ≤ 100) :
    refCellLabel (some p) (pageRankLabel p) (refCellLabel (some p) (pageRankLabel p) old) =
      pageRankLabel p := by
  have hf := pageRankLabel_facts p (by omega) (by omega)
  have hle : (p - 1) % 10 + 1 ≤ p := by omega
  rcases refCellLabel_cases (some p) (pageRankLabel p) old with hL | hL <;> rw [hL]
  · rw [refCellLabel_marker_rule _ _ ((p - 1) % 10 + 1) p hf.1 hf.2.2.2.2.1 hf.2.2.1 h1]
    rw [if_neg (by omega)]
  · rw [refCellLabel_marker_rule _ _ ((p - 1) % 10 + 1) p hf.2.1 hf.2.2.2.2.2 hf.2.2.2.1 h1]
    rw [if_neg (by omega)]

/-- A position selected by `firstMatchPosition` is the position of some result. -/
theorem firstMatchPosition_mem (t : String) (rs : List SearchResult) (q : Nat)
    (h : firstMatchPosition t rs = some q) : ∃ res ∈ rs, res.position = q := by
  unfold firstMatchPosition at h
  rcases hfind : rs.find? (fun res => strContains res.link t) with _ | res
  · rw [hfind] at h; simp at h
  · rw [hfind] at h
    exact ⟨res, List.mem_of_find?_eq_some hfind, by simpa using h⟩

/-- A present position in a `resolveTarget` result is in 1..100 (given the API
returns at most 100 results with 1-based positions) and its label is the
formatted one. -/
theorem resolveTarget_shape (rs : List SearchResult) (t : String) (p : Nat) (s : String)
    (hpos : ∀ res ∈ rs, res.position ≤ 100)
    (h : resolveTarget rs t = (some p, s)) :
    1 ≤ p ∧ p ≤ 100 ∧ s = pageRankLabel p := by
  unfold resolveTarget at h
  rcases hm : firstMatchPosition t rs with _ | q
  · rw [hm] at h; simp at h
  · rw [hm] at h
    have h' : (if q ≠ 0 then ((some q : Option Nat), pageRankLabel q) else (none, "Not Ranked")) =
        (some p, s) := h
    by_cases hq : q ≠ 0
    · rw [if_pos hq] at h'
      obtain ⟨res, hmem, hrp⟩ := firstMatchPosition_mem t rs q hm
      have hb := hpos res hmem
      simp only [Prod.mk.injEq, Option.some.injEq] at h'
      obtain ⟨hqp, hs⟩ := h'
      subst hqp; subst hs
      exact ⟨by omega, by omega, rfl⟩
    · rw [if_neg hq] at h'; simp at h'

/-- Every entry of the retry loop's result is a `resolveTarget` value from some
successful attempt, or the terminal `(None, "Error")`. -/
theorem checkRankingLoop_mem_shape (outcome : Nat → FetchOutcome) (targets : List String)
    (fuel : Nat) : ∀ (attempt : Nat) (e : String × (Option Nat × String)),
    e ∈ checkRankingLoop outcome targets fuel attempt →
    (∃ rs, (∃ a, outcome a = .ok rs) ∧ e.2 = resolveTarget rs e.1) ∨ e.2 = (none, "Error") := by
  induction fuel with
  | zero => intro attempt e he; simp [checkRankingLoop] at he
  | succ n ih =>
    intro attempt e he
    unfold checkRankingLoop at he
    cases ho : outcome attempt with
    | ok rs =>
      rw [ho] at he
      simp only [List.mem_map] at he
      obtain ⟨t, _, rfl⟩ := he
      exact Or.inl ⟨rs, ⟨attempt, ho⟩, rfl⟩
    | fail =>
      rw [ho] at he
      by_cases hn : n = 0
      · rw [if_pos hn] at he
        simp only [List.mem_map] at he
        obtain ⟨t, _, rfl⟩ := he
        exact Or.inr rfl
      · rw [if_neg hn] at he
        exact ih (attempt + 1) e he

/-- A present position looked up in a `check_ranking` dict is in 1..100 with the
formatted label, assuming every API response carries positions at most 100. -/
theorem check_ranking_dictGet_shape (outcome : Nat → FetchOutcome) (targets : List String)
    (t : String) (p : Nat) (s : String)
    (hpos : ∀ a rs, outcome a = .ok rs → ∀ res ∈ rs, res.position ≤ 100)
    (h : dictGet (check_ranking outcome targets) t (none, "Not Ranked") = (some p, s)) :
    1 ≤ p ∧ p ≤ 100 ∧ s = pageRankLabel p := by
  unfold dictGet at h
  rcases hf : (check_ranking outcome targets).find? (fun e => e.1 = t) with _ | e
  · rw [hf] at h; simp at h
  · rw [hf] at h
    have h' : e.2 = (some p, s) := h
    have hmem : e ∈ checkRankingLoop outcome targets MAX_RETRIES 0 :=
      List.mem_of_find?_eq_some hf
    rcases checkRankingLoop_mem_shape outcome targets MAX_RETRIES 0 e hmem with
      ⟨rs, ⟨a, ha⟩, hres⟩ | herr
    · exact resolveTarget_shape rs e.1 p s (hpos a rs ha) (hres.symm.trans h')
    · rw [herr] at h'; simp at h'

/-- Cell-by-cell comparison of a row built from a previous reference text `old`
against the row built from the reference cell this run just produced: every cell
is reproduced except that an improvement marker present in the first row's
reference cell is absent from the second row's. -/
theorem rowLabels_second_run_get (rankings : List (String × (Option Nat × String)))
    (domains : List String) (refDom old : String)
    (hshape : ∀ p s, dictGet rankings refDom (none, "Not Ranked") = (some p, s) →
      1 ≤ p ∧ p ≤ 100 ∧ s = pageRankLabel p) (j : Nat) :
    (rowLabels rankings domains refDom old)[j]? =
      (rowLabels rankings domains refDom
        (refCellLabel (dictGet rankings refDom (none, "Not Ranked")).1
          (dictGet rankings refDom (none, "Not Ranked")).2 old))[j]? ∨
    (domains[j]? = some refDom ∧
      ∃ c, (rowLabels rankings domains refDom
          (refCellLabel (dictGet rankings refDom (none, "Not Ranked")).1
            (dictGet rankings refDom (none, "Not Ranked")).2 old))[j]? = some c ∧
        (rowLabels rankings domains refDom old)[j]? = some (c ++ " ↑")) := by
  unfold rowLabels
  rw [List.getElem?_map, List.getElem?_map]
  cases hd : domains[j]? with
  | none => exact Or.inl rfl
  | some d =>
    by_cases hdr : d = refDom
    · subst hdr
      rcases hr : dictGet rankings d (none, "Not Ranked") with ⟨np, s⟩
      cases np with
      | none =>
        left
        simp only [Option.map_some', eq_self_iff_true, if_true, hr, refCellLabel_none]
      | some p =>
        obtain ⟨h1, h2, hs⟩ := hshape p s hr
        subst hs
        have hsec := refCellLabel_second_run p old h1 h2
        rcases refCellLabel_cases (some p) (pageRankLabel p) old with hL | hL
        · left
          simp only [Option.map_some', eq_self_iff_true, if_true, hr]
          rw [hsec, hL]
        · right
          refine ⟨rfl, pageRankLabel p, ?_, ?_⟩
          · simp only [Option.map_some', eq_self_iff_true, if_true, hr]
            rw [hsec]
          · simp only [Option.map_some', eq_self_iff_true, if_true, hr]
            rw [hL]
    · left
      simp only [Option.map_some', if_neg hdr]

/-- C2, amended: re-running the pipeline with identical upstream API responses,
starting from the snapshot the first run wrote, reproduces every cell label
EXCEPT reference-domain cells to which the first run appended an improvement
marker: there the second run writes the same label without the marker (the
marker condition `new_position < parsed rank` can never hold against a label the
run itself just formatted, since the parsed number is the in-page rank of the
current position). No new marker is ever added on the second run, and all other
cells, including the keyword column, are reproduced exactly. -/
theorem c2_second_run_strips_markers
    (outcome : String → Nat → FetchOutcome) (domains : List String) (refDom : String)
    (prevRef prevRef2 : String → String) (keywords : List String)
    (hpos : ∀ kw a rs, outcome kw a = FetchOutcome.ok rs → ∀ res ∈ rs, res.position ≤ 100)
    (hprev2 : ∀ kw, prevRef2 kw =
      refCellLabel (dictGet (check_ranking (outcome kw) domains) refDom (none, "Not Ranked")).1
        (dictGet (check_ranking (outcome kw) domains) refDom (none, "Not Ranked")).2
        (prevRef kw)) :
    List.Forall₂ (fun row1 row2 =>
      row1.length = row2.length ∧
      ∀ j : Nat, row1[j]? = row2[j]? ∨
        (1 ≤ j ∧ domains[j - 1]? = some refDom ∧
          ∃ c, row2[j]? = some c ∧ row1[j]? = some (c ++ " ↑")))
      (newData outcome domains refDom prevRef keywords)
      (newData outcome domains refDom prevRef2 keywords) := by
  unfold newData
  induction keywords with
  | nil => exact List.Forall₂.nil
  | cons kw ks ih =>
    simp only [List.map_cons]
    refine List.Forall₂.cons ⟨?_, ?_⟩ ih
    · simp [rowLabels]
    · intro j
      cases j with
      | zero => left; simp
      | succ j =>
        simp only [List.getElem?_cons_succ]
        rw [hprev2 kw]
        rcases rowLabels_second_run_get (check_ranking (outcome kw) domains) domains refDom
            (prevRef kw)
            (fun p s h => check_ranking_dictGet_shape (outcome kw) domains refDom p s (hpos kw) h)
            j with h | ⟨ha, c, hc1, hc2⟩
        · left; exact h
        · right; exact ⟨by omega, ha, c, hc1, hc2⟩

/-- C2, counterexample: with identical API responses (reference domain found at
position 5) and the previous snapshot cell `"Page 1 Rank 8"`, the first run
writes `"Page 1 Rank 5 ↑"`; feeding that snapshot into a second run with the
same responses writes `"Page 1 Rank 5"` — the marker is dropped, so the second
run does change a cell label, contradicting the claim. -/
theorem c2_counterexample :
    newData (fun _ _ => .ok [⟨5, "https://lolcfinance.com/"⟩]) ["lolcfinance.com"]
        "lolcfinance.com" (fun _ => "Page 1 Rank 8") ["loans"] =
      [["loans", "Page 1 Rank 5 ↑"]] ∧
    newData (fun _ _ => .ok [⟨5, "https://lolcfinance.com/"⟩]) ["lolcfinance.com"]
        "lolcfinance.com" (fun _ => "Page 1 Rank 5 ↑") ["loans"] =
      [["loans", "Page 1 Rank 5"]] ∧
    ([["loans", "Page 1 Rank 5 ↑"]] : List (List String)) ≠ [["loans", "Page 1 Rank 5"]] := by
  refine ⟨by decide, by decide, by decide⟩

/-- Witness for `c2_second_run_strips_markers` at a concrete run: one keyword,
one domain, reference found at position 5, first-run snapshot cell
`"Page 1 Rank 8"`, second-run snapshot cell `"Page 1 Rank 5 ↑"` (exactly what
the first run wrote). -/
theorem c2_witness :
    List.Forall₂ (fun row1 row2 =>
      row1.length = row2.length ∧
      ∀ j : Nat, row1[j]? = row2[j]? ∨
        (1 ≤ j ∧ (["lolcfinance.com"] : List String)[j - 1]? = some "lolcfinance.com" ∧
          ∃ c, row2[j]? = some c ∧ row1[j]? = some (c ++ " ↑")))
      (newData (fun _ _ => .ok [⟨5, "https://lolcfinance.com/"⟩]) ["lolcfinance.com"]
        "lolcfinance.com" (fun _ => "Page 1 Rank 8") ["loans"])
      (newData (fun _ _ => .ok [⟨5, "https://lolcfinance.com/"⟩]) ["lolcfinance.com"]
        "lolcfinance.com" (fun _ => "Page 1 Rank 5 ↑") ["loans"]) :=
  c2_second_run_strips_markers _ _ _ _ _ _
    (fun kw a rs h res hres => by
      injection h with h2
      subst h2
      simp only [List.mem_singleton] at hres
      subst hres
      decide)
    (fun kw => by decide)

/-- Looking a key up in an association list starting with `(k, v)` gives `v` when
`k` matches and defers to the rest otherwise. -/
theorem dictGet_cons {α : Type} (k : String) (v : α) (rest : List (String × α))
    (t : String) (dflt : α) :
    dictGet ((k, v) :: rest) t dflt = if k = t then v else dictGet rest t dflt := by
  by_cases h : k = t
  · simp [dictGet, List.find?_cons, h]
  · simp [dictGet, List.find?_cons, h]

/-- Looking up any member of `l` in the dict that binds every key of `l` to the
same value `v` yields `v`. -/
theorem dictGet_map_const {α : Type} (v dflt : α) (l : List String) (t : String)
    (ht : t ∈ l) : dictGet (l.map (fun x => (x, v))) t dflt = v := by
  induction l with
  | nil => cases ht
  | cons a l ih =>
    rw [List.map_cons, dictGet_cons]
    by_cases hat : a = t
    · rw [if_pos hat]
    · rw [if_neg hat]
      rcases List.mem_cons.mp ht with h | h
      · exact absurd h.symm hat
      · exact ih h

/-- C3: for every position `p` in 1..100 selected from the fetched results the
produced label is `"Page ((p-1) div 10)+1 Rank ((p-1) mod 10)+1"` with the
in-page rank always in 1..10; when the position is absent the label is
`"Not Ranked"`; and `format(1) = "Page 1 Rank 1"`, `format(11) = "Page 2 Rank 1"`,
`format(100) = "Page 10 Rank 10"`. -/
theorem c3_position_formatter :
    (∀ (rankings : List SearchResult) (t : String) (p : Nat),
      1 ≤ p → p ≤ 100 → firstMatchPosition t rankings = some p →
      resolveTarget rankings t =
        (some p,
          "Page " ++ toString ((p - 1) / 10 + 1) ++ " Rank " ++ toString ((p - 1) % 10 + 1)) ∧
      1 ≤ (p - 1) % 10 + 1 ∧ (p - 1) % 10 + 1 ≤ 10) ∧
    (∀ (rankings : List SearchResult) (t : String),
      firstMatchPosition t rankings = none → resolveTarget rankings t = (none, "Not Ranked")) ∧
    pageRankLabel 1 = "Page 1 Rank 1" ∧
    pageRankLabel 11 = "Page 2 Rank 1" ∧
    pageRankLabel 100 = "Page 10 Rank 10" := by
  refine ⟨?_, ?_, by decide, by decide, by decide⟩
  · intro rankings t p h1 h2 hm
    refine ⟨?_, by omega, by omega⟩
    unfold resolveTarget
    rw [hm]
    show (if p ≠ 0 then ((some p : Option Nat), pageRankLabel p) else (none, "Not Ranked")) = _
    rw [if_pos (by omega : p ≠ 0)]
    rfl
  · intro rankings t hm
    unfold resolveTarget
    rw [hm]

/-- Witness for `c3_position_formatter` at position 13 (the only hypothesis-bearing
conjunct, instantiated on a concrete fetched result list). -/
theorem c3_witness :
    resolveTarget [⟨13, "https://lolcfinance.com/"⟩] "lolcfinance.com" =
      (some 13,
        "Page " ++ toString ((13 - 1) / 10 + 1) ++ " Rank " ++ toString ((13 - 1) % 10 + 1)) ∧
    1 ≤ (13 - 1) % 10 + 1 ∧ (13 - 1) % 10 + 1 ≤ 10 :=
  c3_position_formatter.1 [⟨13, "https://lolcfinance.com/"⟩] "lolcfinance.com" 13
    (by decide) (by decide) (by decide)

/-- C4: when every one of the `MAX_RETRIES = 3` attempts fails with a transport
or non-2xx error, `check_ranking` returns normally (the embedding is a total
function: the `except` branch swallows the `RequestException`) and binds every
requested target domain to `(None, "Error")`. -/
theorem c4_retry_exhaustion (outcome : Nat → FetchOutcome) (targets : List String)
    (hfail : ∀ a, a < MAX_RETRIES → outcome a = .fail) :
    check_ranking outcome targets = targets.map (fun t => (t, (none, "Error"))) ∧
    ∀ t ∈ targets,
      dictGet (check_ranking outcome targets) t (none, "Not Ranked") = (none, "Error") := by
  have h0 := hfail 0 (by decide)
  have h1 := hfail 1 (by decide)
  have h2 := hfail 2 (by decide)
  have hmain : check_ranking outcome targets = targets.map (fun t => (t, (none, "Error"))) := by
    show checkRankingLoop outcome targets 3 0 = _
    simp [checkRankingLoop, h0, h1, h2]
  refine ⟨hmain, fun t ht => ?_⟩
  rw [hmain]
  exact dictGet_map_const (none, "Error") (none, "Not Ranked") targets t ht

/-- Witness for `c4_retry_exhaustion`: an oracle that fails on every attempt,
with two requested domains. -/
theorem c4_witness :
    check_ranking (fun _ => .fail) ["lolcfinance.com", "kia.lk"] =
      [("lolcfinance.com", (none, "Error")), ("kia.lk", (none, "Error"))] ∧
    ∀ t ∈ ["lolcfinance.com", "kia.lk"],
      dictGet (check_ranking (fun _ => .fail) ["lolcfinance.com", "kia.lk"]) t
        (none, "Not Ranked") = (none, "Error") := by
  have h := c4_retry_exhaustion (fun _ => .fail) ["lolcfinance.com", "kia.lk"]
    (fun a _ => rfl)
  exact ⟨h.1.trans (by decide), h.2⟩

/-- C6: on a successful response, the position selected for a target domain is
that of the first result, in the API's returned order, whose URL contains the
domain string as a substring (`target_url in res["link"]`, neither exact nor
host-aware); when no result URL contains it, no position is selected. -/
theorem c6_first_substring_match (target : String) (rankings : List SearchResult) :
    (∀ p : Nat, firstMatchPosition target rankings = some p ↔
      ∃ res pre post, rankings = pre ++ res :: post ∧
        strContains res.link target = true ∧
        (∀ r ∈ pre, strContains r.link target = false) ∧
        res.position = p) ∧
    (firstMatchPosition target rankings = none ↔
      ∀ res ∈ rankings, strContains res.link target = false) := by
  constructor
  · intro p
    unfold firstMatchPosition
    rw [Option.map_eq_some']
    constructor
    · rintro ⟨res, hfind, hpos⟩
      obtain ⟨hp, pre, post, hsplit, hpre⟩ := List.find?_eq_some.mp hfind
      exact ⟨res, pre, post, hsplit, hp,
        fun r hr => by simpa using hpre r hr, hpos⟩
    · rintro ⟨res, pre, post, hsplit, hc, hpre, hpos⟩
      exact ⟨res,
        List.find?_eq_some.mpr ⟨hc, pre, post, hsplit, fun r hr => by simpa using hpre r hr⟩,
        hpos⟩
  · unfold firstMatchPosition
    rw [Option.map_eq_none', List.find?_eq_none]
    constructor
    · intro h res hres
      simpa using h res hres
    · intro h res hres
      simp [h res hres]

/-- Witness for `c6_first_substring_match`: `"kia.lk"` is selected from the
FIRST result whose URL merely contains it as a substring — the unrelated
`"https://www.wikia.lk/a"` — not from the exact-host result that follows; and a
list with no containing URL yields no position. -/
theorem c6_witness :
    firstMatchPosition "kia.lk" [⟨1, "https://www.wikia.lk/a"⟩, ⟨2, "https://kia.lk/b"⟩] =
      some 1 ∧
    firstMatchPosition "kia.lk" [⟨3, "https://example.com/"⟩] = none :=
  ⟨((c6_first_substring_match "kia.lk"
        [⟨1, "https://www.wikia.lk/a"⟩, ⟨2, "https://kia.lk/b"⟩]).1 1).mpr
      ⟨⟨1, "https://www.wikia.lk/a"⟩, [], [⟨2, "https://kia.lk/b"⟩], rfl, by decide,
        fun r hr => absurd hr (List.not_mem_nil r), rfl⟩,
   ((c6_first_substring_match "kia.lk" [⟨3, "https://example.com/"⟩]).2).mpr (by decide)⟩

/-- Looking up a member of `l` in the dict that binds each key `x` of `l` to
`f x` yields `f` of the key (first occurrence; duplicates carry equal values). -/
theorem dictGet_map_keyed {α : Type} (f : String → α) (dflt : α) (l : List String)
    (t : String) (ht : t ∈ l) : dictGet (l.map (fun x => (x, f x))) t dflt = f t := by
  induction l with
  | nil => cases ht
  | cons a l ih =>
    rw [List.map_cons, dictGet_cons]
    by_cases hat : a = t
    · rw [if_pos hat, hat]
    · rw [if_neg hat]
      rcases List.mem_cons.mp ht with h | h
      · exact absurd h.symm hat
      · exact ih h

/-- Every request logged by the per-keyword retry loop is for that keyword. -/
theorem batchKeywordFetch_log (outcome : Nat → FetchOutcome) (kw target : String) :
    ∀ fuel attempt x, x ∈ (batchKeywordFetch outcome kw target fuel attempt).2 → x = kw := by
  intro fuel
  induction fuel with
  | zero => intro attempt x hx; simp [batchKeywordFetch] at hx
  | succ n ih =>
    intro attempt x hx
    unfold batchKeywordFetch at hx
    cases ho : outcome attempt with
    | ok rs =>
      rw [ho] at hx
      simpa using hx
    | fail =>
      rw [ho] at hx
      by_cases hn : n = 0
      · rw [if_pos hn] at hx
        simpa using hx
      · rw [if_neg hn] at hx
        have hx' : x ∈ kw :: (batchKeywordFetch outcome kw target n (attempt + 1)).2 := hx
        rcases List.mem_cons.mp hx' with h | h
        · exact h
        · exact ih (attempt + 1) x h

/-- Unrolling of the batched client's fold: the results dict binds each keyword
in input order to its per-keyword outcome, and the request log is the
concatenation of the non-empty keywords' per-keyword logs. -/
theorem check_ranking_batch_eq (outcome : String → Nat → FetchOutcome) (target : String) :
    ∀ (keywords : List String) (acc : List (String × (Option Nat × String)) × List String),
    keywords.foldl (fun acc kw =>
      if kw = "" then (acc.1 ++ [(kw, (none, "Empty Keyword"))], acc.2)
      else
        let r := batchKeywordFetch (outcome kw) kw target MAX_RETRIES 0
        (acc.1 ++ [(kw, r.1)], acc.2 ++ r.2)) acc =
    (acc.1 ++ keywords.map (fun kw => (kw,
        if kw = "" then (none, "Empty Keyword")
        else (batchKeywordFetch (outcome kw) kw target MAX_RETRIES 0).1)),
     acc.2 ++ keywords.flatMap (fun kw =>
        if kw = "" then []
        else (batchKeywordFetch (outcome kw) kw target MAX_RETRIES 0).2)) := by
  intro keywords
  induction keywords with
  | nil => intro acc; simp
  | cons kw ks ih =>
    intro acc
    rw [List.foldl_cons]
    by_cases hkw : kw = ""
    · rw [if_pos hkw, ih]
      simp [hkw, List.append_assoc]
    · rw [if_neg hkw, ih]
      simp [hkw, List.append_assoc]

/-- C9: the batched multi-keyword client never sends an empty-string keyword to
the ranking API (every logged request is for a non-empty keyword of the input),
maps the empty keyword immediately to `(None, "Empty Keyword")` — a label
outside the `"Not Ranked"` / `"Error"` vocabulary — and routes every non-empty
keyword through the normal retry-fetch path. -/
theorem c9_empty_keyword (outcome : String → Nat → FetchOutcome) (keywords : List String)
    (target : String) :
    (∀ x ∈ (check_ranking_batch outcome keywords target).2, x ≠ "" ∧ x ∈ keywords) ∧
    ("" ∈ keywords →
      dictGet (check_ranking_batch outcome keywords target).1 "" (none, "Not Ranked") =
        (none, "Empty Keyword")) ∧
    (∀ kw ∈ keywords, kw ≠ "" →
      (kw, (batchKeywordFetch (outcome kw) kw target MAX_RETRIES 0).1) ∈
        (check_ranking_batch outcome keywords target).1) ∧
    ("Empty Keyword" ≠ "Not Ranked" ∧ "Empty Keyword" ≠ "Error") := by
  have hfold := check_ranking_batch_eq outcome target keywords ([], [])
  have h1 : (check_ranking_batch outcome keywords target).1 =
      keywords.map (fun kw => (kw,
        if kw = "" then (none, "Empty Keyword")
        else (batchKeywordFetch (outcome kw) kw target MAX_RETRIES 0).1)) := by
    unfold check_ranking_batch
    rw [hfold]
    simp
  have h2 : (check_ranking_batch outcome keywords target).2 =
      keywords.flatMap (fun kw =>
        if kw = "" then []
        else (batchKeywordFetch (outcome kw) kw target MAX_RETRIES 0).2) := by
    unfold check_ranking_batch
    rw [hfold]
    simp
  refine ⟨?_, ?_, ?_, by decide, by decide⟩
  · intro x hx
    rw [h2] at hx
    obtain ⟨kw, hkwmem, hxin⟩ := List.mem_flatMap.mp hx
    by_cases hkw : kw = ""
    · rw [if_pos hkw] at hxin
      cases hxin
    · rw [if_neg hkw] at hxin
      have := batchKeywordFetch_log (outcome kw) kw target MAX_RETRIES 0 x hxin
      subst this
      exact ⟨hkw, hkwmem⟩
  · intro hmem
    rw [h1]
    rw [dictGet_map_keyed _ _ keywords "" hmem]
    rw [if_pos rfl]
  · intro kw hmem hkw
    rw [h1]
    have := List.mem_map_of_mem (fun kw => (kw,
        if kw = "" then ((none : Option Nat), "Empty Keyword")
        else (batchKeywordFetch (outcome kw) kw target MAX_RETRIES 0).1)) hmem
    simpa [hkw] using this

/-- Witness for `c9_empty_keyword` on the keyword list `["", "loans"]`. -/
theorem c9_witness :
    dictGet (check_ranking_batch (fun _ _ => .ok []) ["", "loans"] "t").1 ""
      (none, "Not Ranked") = (none, "Empty Keyword") ∧
    ("loans",
      (batchKeywordFetch ((fun (_ : String) (_ : Nat) => FetchOutcome.ok []) "loans")
        "loans" "t" MAX_RETRIES 0).1) ∈
      (check_ranking_batch (fun _ _ => .ok []) ["", "loans"] "t").1 :=
  ⟨(c9_empty_keyword (fun _ _ => .ok []) ["", "loans"] "t").2.1 (by decide),
   (c9_empty_keyword (fun _ _ => .ok []) ["", "loans"] "t").2.2.1 "loans" (by decide) (by decide)⟩

/-- C10: the batched sheet update addresses the target cell with the single
character `chr(65 + domain_col_index)`; that character is a well-formed
A1-notation column letter (uppercase `A`..`Z`) exactly when the domain's column
index is at most 25, and for any index of 26 or more the produced character is
outside `A`..`Z`, so the produced range string is not a well-formed column
reference (e.g. index 26 yields `'['` and the range `"Sheet1![2"`). -/
theorem c10_column_letter (i : Nat) :
    (i ≤ 25 → isUpperAZCode (colLetterCode i) = true) ∧
    (26 ≤ i → isUpperAZCode (colLetterCode i) = false) ∧
    colLetter 25 = 'Z' ∧ colLetter 26 = '[' ∧
    batchUpdateRange "Sheet1" 26 2 = "Sheet1![2" := by
  refine ⟨?_, ?_, by decide, by decide, by decide⟩
  · intro h
    simp only [isUpperAZCode, colLetterCode, Bool.and_eq_true, decide_eq_true_eq]
    omega
  · intro h
    simp only [isUpperAZCode, colLetterCode, Bool.and_eq_false_iff, decide_eq_false_iff_not]
    omega

/-- Witness for `c10_column_letter` at the boundary indices 25 and 26. -/
theorem c10_witness :
    isUpperAZCode (colLetterCode 25) = true ∧ isUpperAZCode (colLetterCode 26) = false :=
  ⟨(c10_column_letter 25).1 (by decide), (c10_column_letter 26).2.1 (by decide)⟩

/-- Unrolling of the orchestrator's aggregation fold: successful domains land in
the first list and all others in the second, both in configuration order. -/
theorem update_all_domains_eq (run : String → JobOutcome) :
    ∀ (domains : List String) (acc : List String × List String),
    domains.foldl (fun acc d =>
      match run d with
      | .ok true => (acc.1 ++ [d], acc.2)
      | .ok false => (acc.1, acc.2 ++ [d])
      | .exn _ => (acc.1, acc.2 ++ [d])) acc =
    (acc.1 ++ domains.filter (fun d => decide (run d = JobOutcome.ok true)),
     acc.2 ++ domains.filter (fun d => !decide (run d = JobOutcome.ok true))) := by
  intro domains
  induction domains with
  | nil => intro acc; simp
  | cons d rest ih =>
    intro acc
    rw [List.foldl_cons, ih]
    cases hrd : run d with
    | ok b =>
      cases b
      · simp [hrd, List.filter_cons, List.append_assoc]
      · simp [hrd, List.filter_cons, List.append_assoc]
    | exn m => simp [hrd, List.filter_cons, List.append_assoc]

/-- C7: when exactly one configured domain's pipeline fails (returns `False` or
raises) and every other domain's pipeline succeeds, the aggregated result holds
exactly that one domain in the failed list and every other domain in the
processed list; no domain is lost and none appears in both lists, so a failing
domain never aborts or alters the processing of the others. -/
theorem c7_orchestrator_isolation (run : String → JobOutcome) (domains : List String)
    (d0 : String) (hmem : d0 ∈ domains) (hcount : domains.count d0 = 1)
    (hfail : run d0 ≠ JobOutcome.ok true)
    (hok : ∀ d ∈ domains, d ≠ d0 → run d = JobOutcome.ok true) :
    (update_all_domains run domains).2 = [d0] ∧
    (update_all_domains run domains).1 = domains.filter (fun d => !decide (d = d0)) ∧
    ∀ d ∈ domains, (d ∈ (update_all_domains run domains).1 ↔ d ≠ d0) ∧
      (d ∈ (update_all_domains run domains).2 ↔ d = d0) := by
  have hpart : update_all_domains run domains =
      (domains.filter (fun d => decide (run d = JobOutcome.ok true)),
       domains.filter (fun d => !decide (run d = JobOutcome.ok true))) := by
    unfold update_all_domains
    rw [update_all_domains_eq]
    simp
  have hfailfilter : domains.filter (fun d => !decide (run d = JobOutcome.ok true)) =
      domains.filter (fun d => decide (d = d0)) :=
    List.filter_congr (fun d hd => by
      by_cases hdd : d = d0
      · subst hdd; simp [hfail]
      · simp [hok d hd hdd, hdd])
  have hokfilter : domains.filter (fun d => decide (run d = JobOutcome.ok true)) =
      domains.filter (fun d => !decide (d = d0)) :=
    List.filter_congr (fun d hd => by
      by_cases hdd : d = d0
      · subst hdd; simp [hfail]
      · simp [hok d hd hdd, hdd])
  have h2 : (update_all_domains run domains).2 = [d0] := by
    rw [hpart]
    show domains.filter (fun d => !decide (run d = JobOutcome.ok true)) = [d0]
    rw [hfailfilter, List.filter_eq, hcount]
    rfl
  have h1 : (update_all_domains run domains).1 =
      domains.filter (fun d => !decide (d = d0)) := by
    rw [hpart]
    exact hokfilter
  refine ⟨h2, h1, fun d hd => ⟨?_, ?_⟩⟩
  · rw [h1]
    simp [List.mem_filter, hd]
  · rw [h2]
    simp

/-- Witness for `c7_orchestrator_isolation`: three configured domains where the
second returns a configuration failure and the other two succeed. -/
theorem c7_witness :
    (update_all_domains
        (fun d => if d = "b.com" then JobOutcome.exn "headers" else JobOutcome.ok true)
        ["a.com", "b.com", "c.com"]).2 = ["b.com"] ∧
    (update_all_domains
        (fun d => if d = "b.com" then JobOutcome.exn "headers" else JobOutcome.ok true)
        ["a.com", "b.com", "c.com"]).1 =
      (["a.com", "b.com", "c.com"].filter (fun d => !decide (d = "b.com"))) ∧
    ∀ d ∈ ["a.com", "b.com", "c.com"],
      (d ∈ (update_all_domains
        (fun d => if d = "b.com" then JobOutcome.exn "headers" else JobOutcome.ok true)
        ["a.com", "b.com", "c.com"]).1 ↔ d ≠ "b.com") ∧
      (d ∈ (update_all_domains
        (fun d => if d = "b.com" then JobOutcome.exn "headers" else JobOutcome.ok true)
        ["a.com", "b.com", "c.com"]).2 ↔ d = "b.com") :=
  c7_orchestrator_isolation
    (fun d => if d = "b.com" then JobOutcome.exn "headers" else JobOutcome.ok true)
    ["a.com", "b.com", "c.com"] "b.com" (by decide) (by decide) (by decide)
    (fun d hd hne => by
      fin_cases hd <;> simp_all)

/-- A `resolveTarget` result with an absent position is labelled `"Not Ranked"`. -/
theorem resolveTarget_none (rs : List SearchResult) (t : String) (s : String)
    (h : resolveTarget rs t = (none, s)) : s = "Not Ranked" := by
  unfold resolveTarget at h
  rcases hm : firstMatchPosition t rs with _ | q
  · rw [hm] at h
    have h' : ((none : Option Nat), "Not Ranked") = ((none : Option Nat), s) := h
    simp only [Prod.mk.injEq] at h'
    exact h'.2.symm
  · rw [hm] at h
    have h' : (if q ≠ 0 then ((some q : Option Nat), pageRankLabel q)
        else (none, "Not Ranked")) = (none, s) := h
    by_cases hq : q ≠ 0
    · rw [if_pos hq] at h'
      simp at h'
    · rw [if_neg hq] at h'
      simp only [Prod.mk.injEq] at h'
      exact h'.2.symm

/-- A `check_ranking` lookup with an absent position carries one of the explicit
labels `"Not Ranked"` or `"Error"`. -/
theorem check_ranking_none_label (outcome : Nat → FetchOutcome) (targets : List String)
    (t : String) (s : String)
    (h : dictGet (check_ranking outcome targets) t (none, "Not Ranked") = (none, s)) :
    s = "Not Ranked" ∨ s = "Error" := by
  unfold dictGet at h
  rcases hf : (check_ranking outcome targets).find? (fun e => e.1 = t) with _ | e
  · rw [hf] at h
    have h' : ((none : Option Nat), "Not Ranked") = ((none : Option Nat), s) := h
    simp only [Prod.mk.injEq] at h'
    exact Or.inl h'.2.symm
  · rw [hf] at h
    have h' : e.2 = (none, s) := h
    have hmem : e ∈ checkRankingLoop outcome targets MAX_RETRIES 0 :=
      List.mem_of_find?_eq_some hf
    rcases checkRankingLoop_mem_shape outcome targets MAX_RETRIES 0 e hmem with
      ⟨rs, _, hres⟩ | herr
    · exact Or.inl (resolveTarget_none rs e.1 s (hres.symm.trans h'))
    · rw [herr] at h'
      simp only [Prod.mk.injEq] at h'
      exact Or.inr h'.2.symm

/-- C8: the rows written back preserve the previous snapshot's keyword order
one-for-one (row i belongs to keyword i), every row is complete with one cell
per tracked domain plus the keyword cell, and any domain whose ranking resolved
to no position gets its explicit stored label, which is `"Not Ranked"` or
`"Error"` — no row is dropped or shortened. -/
theorem c8_rows_complete (outcome : String → Nat → FetchOutcome) (domains : List String)
    (refDom : String) (prevRef : String → String) (keywords : List String) :
    (newData outcome domains refDom prevRef keywords).map (fun row => row.headI) = keywords ∧
    (∀ row ∈ newData outcome domains refDom prevRef keywords,
      row.length = domains.length + 1) ∧
    (∀ (kw : String) (j : Nat) (d : String), domains[j]? = some d →
      (dictGet (check_ranking (outcome kw) domains) d (none, "Not Ranked")).1 = none →
      (rowLabels (check_ranking (outcome kw) domains) domains refDom (prevRef kw))[j]? =
        some (dictGet (check_ranking (outcome kw) domains) d (none, "Not Ranked")).2 ∧
      ((dictGet (check_ranking (outcome kw) domains) d (none, "Not Ranked")).2 = "Not Ranked" ∨
        (dictGet (check_ranking (outcome kw) domains) d (none, "Not Ranked")).2 = "Error")) := by
  refine ⟨?_, ?_, ?_⟩
  · unfold newData
    rw [List.map_map]
    exact List.map_id keywords
  · intro row hrow
    unfold newData at hrow
    obtain ⟨kw, _, rfl⟩ := List.mem_map.mp hrow
    simp [rowLabels]
  · intro kw j d hd hnone
    constructor
    · unfold rowLabels
      rw [List.getElem?_map, hd]
      simp only [Option.map_some']
      by_cases hdr : d = refDom
      · subst hdr
        rcases hr : dictGet (check_ranking (outcome kw) domains) d (none, "Not Ranked")
          with ⟨np, s⟩
        rw [hr] at hnone
        have hnp : np = none := hnone
        subst hnp
        simp [hr, refCellLabel_none]
      · simp [if_neg hdr]
    · rcases hr : dictGet (check_ranking (outcome kw) domains) d (none, "Not Ranked")
        with ⟨np, s⟩
      rw [hr] at hnone
      have hnp : np = none := hnone
      subst hnp
      exact check_ranking_none_label (outcome kw) domains d s hr

/-- Witness for `c8_rows_complete`: one keyword, one domain, an oracle that
fails every attempt (so the cell label is the explicit `"Error"`). -/
theorem c8_witness :
    (newData (fun _ _ => .fail) ["a.com"] "lolcfinance.com" (fun _ => "") ["k"]).map
      (fun row => row.headI) = ["k"] ∧
    ((rowLabels (check_ranking ((fun (_ : String) (_ : Nat) => FetchOutcome.fail) "k")
        ["a.com"]) ["a.com"] "lolcfinance.com" ((fun (_ : String) => "") "k"))[0]? =
      some (dictGet (check_ranking ((fun (_ : String) (_ : Nat) => FetchOutcome.fail) "k")
        ["a.com"]) "a.com" (none, "Not Ranked")).2 ∧
      ((dictGet (check_ranking ((fun (_ : String) (_ : Nat) => FetchOutcome.fail) "k")
        ["a.com"]) "a.com" (none, "Not Ranked")).2 = "Not Ranked" ∨
       (dictGet (check_ranking ((fun (_ : String) (_ : Nat) => FetchOutcome.fail) "k")
        ["a.com"]) "a.com" (none, "Not Ranked")).2 = "Error")) :=
  ⟨(c8_rows_complete (fun _ _ => .fail) ["a.com"] "lolcfinance.com" (fun _ => "") ["k"]).1,
   (c8_rows_complete (fun _ _ => .fail) ["a.com"] "lolcfinance.com" (fun _ => "") ["k"]).2.2
     "k" 0 "a.com" (by decide) (by decide)⟩

/-- Full invariant of the best-position fold: a `none` result means no truthy
position was seen; a `some (b, bj)` result is either the incoming accumulator or
the first (ties kept at the earliest column) truthy minimum of the processed
list, strictly below any accumulator it displaced, and a lower bound on every
truthy position of the list. -/
theorem bestDomainFold_spec (ps : List (Option Nat)) : ∀ (j : Nat) (acc : Option (Nat × Nat)),
    (∀ b bj, acc = some (b, bj) → b ≠ 0) →
    (bestDomainFold ps j acc = none →
      acc = none ∧ ∀ (k q : Nat), ps[k]? = some (some q) → q = 0) ∧
    (∀ b bj, bestDomainFold ps j acc = some (b, bj) →
      b ≠ 0 ∧
      (∀ (k q : Nat), ps[k]? = some (some q) → q ≠ 0 → b ≤ q) ∧
      (acc = some (b, bj) ∨
       ∃ m, bj = j + m ∧ ps[m]? = some (some b) ∧
         (∀ (k q : Nat), k < m → ps[k]? = some (some q) → q ≠ 0 → b < q) ∧
         (∀ b0 bj0, acc = some (b0, bj0) → b < b0))) := by
  induction ps with
  | nil =>
    intro j acc hacc
    constructor
    · intro h
      have hn : acc = none := h
      exact ⟨hn, fun k q hk => by simp at hk⟩
    · intro b bj h
      have hs : acc = some (b, bj) := h
      exact ⟨hacc b bj hs, fun k q hk => by simp at hk, Or.inl hs⟩
  | cons p rest ih =>
    intro j acc hacc
    cases p with
    | none =>
      have hstep : bestDomainFold (none :: rest) j acc = bestDomainFold rest (j + 1) acc := rfl
      obtain ⟨ihn, ihs⟩ := ih (j + 1) acc hacc
      constructor
      · intro h
        rw [hstep] at h
        obtain ⟨hn, hz⟩ := ihn h
        refine ⟨hn, fun k q hk => ?_⟩
        cases k with
        | zero => rw [List.getElem?_cons_zero] at hk; simp at hk
        | succ k => rw [List.getElem?_cons_succ] at hk; exact hz k q hk
      · intro b bj h
        rw [hstep] at h
        obtain ⟨hb, hle, hdisj⟩ := ihs b bj h
        refine ⟨hb, fun k q hk hq => ?_, ?_⟩
        · cases k with
          | zero => rw [List.getElem?_cons_zero] at hk; simp at hk
          | succ k => rw [List.getElem?_cons_succ] at hk; exact hle k q hk hq
        · rcases hdisj with hl | ⟨m, hm, hpm, hmin, hltacc⟩
          · exact Or.inl hl
          · refine Or.inr ⟨m + 1, by omega, by rwa [List.getElem?_cons_succ], ?_, hltacc⟩
            intro k q hk hkq hq
            cases k with
            | zero => rw [List.getElem?_cons_zero] at hkq; simp at hkq
            | succ k =>
              rw [List.getElem?_cons_succ] at hkq
              exact hmin k q (by omega) hkq hq
    | some q =>
      cases acc with
      | none =>
        by_cases hq : q ≠ 0
        · have hstep : bestDomainFold (some q :: rest) j none =
              bestDomainFold rest (j + 1) (if q ≠ 0 then some (q, j) else none) := rfl
          rw [if_pos hq] at hstep
          have hacc' : ∀ b bj, (some (q, j) : Option (Nat × Nat)) = some (b, bj) → b ≠ 0 := by
            intro b bj h
            injection h with h1
            rw [Prod.mk.injEq] at h1
            omega
          obtain ⟨ihn, ihs⟩ := ih (j + 1) (some (q, j)) hacc'
          constructor
          · intro h
            rw [hstep] at h
            obtain ⟨hn, _⟩ := ihn h
            cases hn
          · intro b bj h
            rw [hstep] at h
            obtain ⟨hb, hle, hdisj⟩ := ihs b bj h
            have hbq : b ≤ q := by
              rcases hdisj with hl | ⟨m, hm, hpm, hmin, hltacc⟩
              · injection hl with h1
                rw [Prod.mk.injEq] at h1
                omega
              · have := hltacc q j rfl
                omega
            refine ⟨hb, fun k q2 hk hq2 => ?_, ?_⟩
            · cases k with
              | zero =>
                rw [List.getElem?_cons_zero] at hk
                have : q = q2 := by
                  injection hk with h1
                  injection h1
                omega
              | succ k => rw [List.getElem?_cons_succ] at hk; exact hle k q2 hk hq2
            · rcases hdisj with hl | ⟨m, hm, hpm, hmin, hltacc⟩
              · injection hl with h1
                rw [Prod.mk.injEq] at h1
                obtain ⟨hqb, hjbj⟩ := h1
                refine Or.inr ⟨0, by omega, ?_, fun k q2 hk _ _ => by omega, fun b0 bj0 h0 => by cases h0⟩
                rw [List.getElem?_cons_zero]
                rw [hqb]
              · refine Or.inr ⟨m + 1, by omega, by rwa [List.getElem?_cons_succ], ?_,
                  fun b0 bj0 h0 => by cases h0⟩
                intro k q2 hk hkq hq2
                cases k with
                | zero =>
                  rw [List.getElem?_cons_zero] at hkq
                  have hq2q : q = q2 := by
                    injection hkq with h1
                    injection h1
                  have := hltacc q j rfl
                  omega
                | succ k =>
                  rw [List.getElem?_cons_succ] at hkq
                  exact hmin k q2 (by omega) hkq hq2
        · have hq0 : q = 0 := by omega
          have hstep : bestDomainFold (some q :: rest) j none =
              bestDomainFold rest (j + 1) (if q ≠ 0 then some (q, j) else none) := rfl
          rw [if_neg hq] at hstep
          obtain ⟨ihn, ihs⟩ := ih (j + 1) none (fun b bj h => by cases h)
          constructor
          · intro h
            rw [hstep] at h
            obtain ⟨_, hz⟩ := ihn h
            refine ⟨rfl, fun k q2 hk => ?_⟩
            cases k with
            | zero =>
              rw [List.getElem?_cons_zero] at hk
              have : q = q2 := by
                injection hk with h1
                injection h1
              omega
            | succ k => rw [List.getElem?_cons_succ] at hk; exact hz k q2 hk
          · intro b bj h
            rw [hstep] at h
            obtain ⟨hb, hle, hdisj⟩ := ihs b bj h
            refine ⟨hb, fun k q2 hk hq2 => ?_, ?_⟩
            · cases k with
              | zero =>
                rw [List.getElem?_cons_zero] at hk
                have : q = q2 := by
                  injection hk with h1
                  injection h1
                omega
              | succ k => rw [List.getElem?_cons_succ] at hk; exact hle k q2 hk hq2
            · rcases hdisj with hl | ⟨m, hm, hpm, hmin, _⟩
              · cases hl
              · refine Or.inr ⟨m + 1, by omega, by rwa [List.getElem?_cons_succ], ?_,
                  fun b0 bj0 h0 => by cases h0⟩
                intro k q2 hk hkq hq2
                cases k with
                | zero =>
                  rw [List.getElem?_cons_zero] at hkq
                  have : q = q2 := by
                    injection hkq with h1
                    injection h1
                  omega
                | succ k =>
                  rw [List.getElem?_cons_succ] at hkq
                  exact hmin k q2 (by omega) hkq hq2
      | some pair =>
        obtain ⟨b0, bj0⟩ := pair
        have hb0 : b0 ≠ 0 := hacc b0 bj0 rfl
        by_cases hc : q ≠ 0 ∧ q < b0
        · have hstep : bestDomainFold (some q :: rest) j (some (b0, bj0)) =
              bestDomainFold rest (j + 1)
                (if q ≠ 0 ∧ q < b0 then some (q, j) else some (b0, bj0)) := rfl
          rw [if_pos hc] at hstep
          have hacc' : ∀ b bj, (some (q, j) : Option (Nat × Nat)) = some (b, bj) → b ≠ 0 := by
            intro b bj h
            injection h with h1
            rw [Prod.mk.injEq] at h1
            have := hc.1
            omega
          obtain ⟨ihn, ihs⟩ := ih (j + 1) (some (q, j)) hacc'
          constructor
          · intro h
            rw [hstep] at h
            obtain ⟨hn, _⟩ := ihn h
            cases hn
          · intro b bj h
            rw [hstep] at h
            obtain ⟨hb, hle, hdisj⟩ := ihs b bj h
            have hbq : b ≤ q := by
              rcases hdisj with hl | ⟨m, hm, hpm, hmin, hltacc⟩
              · injection hl with h1
                rw [Prod.mk.injEq] at h1
                omega
              · have := hltacc q j rfl
                omega
            refine ⟨hb, fun k q2 hk hq2 => ?_, ?_⟩
            · cases k with
              | zero =>
                rw [List.getElem?_cons_zero] at hk
                have : q = q2 := by
                  injection hk with h1
                  injection h1
                omega
              | succ k => rw [List.getElem?_cons_succ] at hk; exact hle k q2 hk hq2
            · rcases hdisj with hl | ⟨m, hm, hpm, hmin, hltacc⟩
              · injection hl with h1
                rw [Prod.mk.injEq] at h1
                obtain ⟨hqb, hjbj⟩ := h1
                refine Or.inr ⟨0, by omega, ?_, fun k q2 hk _ _ => by omega, ?_⟩
                · rw [List.getElem?_cons_zero, hqb]
                · intro b1 bj1 h1
                  injection h1 with h2
                  rw [Prod.mk.injEq] at h2
                  have := hc.2
                  omega
              · refine Or.inr ⟨m + 1, by omega, by rwa [List.getElem?_cons_succ], ?_, ?_⟩
                · intro k q2 hk hkq hq2
                  cases k with
                  | zero =>
                    rw [List.getElem?_cons_zero] at hkq
                    have : q = q2 := by
                      injection hkq with h1
                      injection h1
                    have := hltacc q j rfl
                    omega
                  | succ k =>
                    rw [List.getElem?_cons_succ] at hkq
                    exact hmin k q2 (by omega) hkq hq2
                · intro b1 bj1 h1
                  injection h1 with h2
                  rw [Prod.mk.injEq] at h2
                  have := hltacc q j rfl
                  have := hc.2
                  omega
        · have hstep : bestDomainFold (some q :: rest) j (some (b0, bj0)) =
              bestDomainFold rest (j + 1)
                (if q ≠ 0 ∧ q < b0 then some (q, j) else some (b0, bj0)) := rfl
          rw [if_neg hc] at hstep
          obtain ⟨ihn, ihs⟩ := ih (j + 1) (some (b0, bj0)) hacc
          have hq_cases : q = 0 ∨ b0 ≤ q := by
            by_cases hq : q = 0
            · exact Or.inl hq
            · right
              by_contra hlt
              exact hc ⟨hq, by omega⟩
          constructor
          · intro h
            rw [hstep] at h
            obtain ⟨hn, _⟩ := ihn h
            cases hn
          · intro b bj h
            rw [hstep] at h
            obtain ⟨hb, hle, hdisj⟩ := ihs b bj h
            have hbb0 : b ≤ b0 := by
              rcases hdisj with hl | ⟨m, hm, hpm, hmin, hltacc⟩
              · injection hl with h1
                rw [Prod.mk.injEq] at h1
                omega
              · have := hltacc b0 bj0 rfl
                omega
            refine ⟨hb, fun k q2 hk hq2 => ?_, ?_⟩
            · cases k with
              | zero =>
                rw [List.getElem?_cons_zero] at hk
                have : q = q2 := by
                  injection hk with h1
                  injection h1
                rcases hq_cases with h0 | h0 <;> omega
              | succ k => rw [List.getElem?_cons_succ] at hk; exact hle k q2 hk hq2
            · rcases hdisj with hl | ⟨m, hm, hpm, hmin, hltacc⟩
              · exact Or.inl hl
              · refine Or.inr ⟨m + 1, by omega, by rwa [List.getElem?_cons_succ], ?_, hltacc⟩
                intro k q2 hk hkq hq2
                cases k with
                | zero =>
                  rw [List.getElem?_cons_zero] at hkq
                  have : q = q2 := by
                    injection hkq with h1
                    injection h1
                  have := hltacc b0 bj0 rfl
                  rcases hq_cases with h0 | h0 <;> omega
                | succ k =>
                  rw [List.getElem?_cons_succ] at hkq
                  exact hmin k q2 (by omega) hkq hq2

/-- Spec of `bestDomain`: a `none` result means no truthy position; a
`some (b, bj)` result points at a column holding position `b`, the minimum of
all truthy positions, with every strictly earlier column holding a strictly
larger truthy position (ties broken by first-seen column order). -/
theorem bestDomain_spec (ps : List (Option Nat)) :
    (bestDomain ps = none → ∀ (k q : Nat), ps[k]? = some (some q) → q = 0) ∧
    (∀ b bj, bestDomain ps = some (b, bj) →
      b ≠ 0 ∧ ps[bj]? = some (some b) ∧
      (∀ (k q : Nat), ps[k]? = some (some q) → q ≠ 0 → b ≤ q) ∧
      (∀ (k q : Nat), k < bj → ps[k]? = some (some q) → q ≠ 0 → b < q)) := by
  obtain ⟨hn, hs⟩ := bestDomainFold_spec ps 0 none (fun b bj h => by cases h)
  constructor
  · intro h
    exact (hn h).2
  · intro b bj h
    obtain ⟨hb, hle, hdisj⟩ := hs b bj h
    rcases hdisj with hl | ⟨m, hm, hpm, hmin, _⟩
    · cases hl
    · have hmbj : m = bj := by omega
      subst hmbj
      exact ⟨hb, hpm, hle, hmin⟩

/-- C5: for each keyword the domain flagged for the best-rank highlight is the
one whose fetched position is the lowest among all domains, ties broken by
first-seen column order; domains with no position are excluded from the
comparison (never flagged) and, on a successful fetch, labelled `"Not Ranked"`;
and when the reference domain is itself the best, its cell is emitted once with
only the best-rank (green) highlight, replacing the default yellow reference
highlight rather than stacking with it. -/
theorem c5_best_highlight (rankings : List (String × (Option Nat × String)))
    (domains : List String) (refDom : String) (i : Nat)
    (hpos : ∀ d p s, dictGet rankings d (none, "Not Ranked") = (some p, s) → 1 ≤ p) :
    (∀ b bj, bestDomain (domains.map
        (fun d => (dictGet rankings d (none, "Not Ranked")).1)) = some (b, bj) →
      (∃ d, domains[bj]? = some d ∧
        (dictGet rankings d (none, "Not Ranked")).1 = some b) ∧
      (∀ (k : Nat) (d : String) (q : Nat), domains[k]? = some d →
        (dictGet rankings d (none, "Not Ranked")).1 = some q → b ≤ q) ∧
      (∀ (k : Nat) (d : String) (q : Nat), k < bj → domains[k]? = some d →
        (dictGet rankings d (none, "Not Ranked")).1 = some q → b < q)) ∧
    (∀ (rs : List SearchResult) (t s : String),
      resolveTarget rs t = (none, s) → s = "Not Ranked") ∧
    (∀ j : Nat, cellsForDomain refDom refDom (some j) i j =
      [⟨i + 1, j + 1, GREEN_COLOR⟩]) ∧
    (∀ (j : Nat) (best : Option Nat), best ≠ some j →
      cellsForDomain refDom refDom best i j = [⟨i + 1, j + 1, YELLOW_COLOR⟩]) ∧
    GREEN_COLOR ≠ YELLOW_COLOR := by
  have hq1 : ∀ (k : Nat) (d : String) (q : Nat), domains[k]? = some d →
      (dictGet rankings d (none, "Not Ranked")).1 = some q → 1 ≤ q := by
    intro k d q hd hq
    rcases hr : dictGet rankings d (none, "Not Ranked") with ⟨np, s⟩
    rw [hr] at hq
    have hnp : np = some q := hq
    subst hnp
    exact hpos d q s hr
  have hps : ∀ (k : Nat) (d : String) (q : Nat), domains[k]? = some d →
      (dictGet rankings d (none, "Not Ranked")).1 = some q →
      (domains.map (fun d => (dictGet rankings d (none, "Not Ranked")).1))[k]? =
        some (some q) := by
    intro k d q hd hq
    rw [List.getElem?_map, hd, Option.map_some', hq]
  refine ⟨?_, fun rs t s h => resolveTarget_none rs t s h, ?_, ?_, by decide⟩
  · intro b bj h
    obtain ⟨hb, hpm, hle, hmin⟩ :=
      (bestDomain_spec (domains.map
        (fun d => (dictGet rankings d (none, "Not Ranked")).1))).2 b bj h
    rw [List.getElem?_map] at hpm
    rcases hd : domains[bj]? with _ | d
    · rw [hd] at hpm; cases hpm
    · rw [hd] at hpm
      have hfd : (dictGet rankings d (none, "Not Ranked")).1 = some b := by
        have h' : some ((dictGet rankings d (none, "Not Ranked")).1) = some (some b) := hpm
        injection h'
      refine ⟨⟨d, rfl, hfd⟩, ?_, ?_⟩
      · intro k d2 q hd2 hq
        exact hle k q (hps k d2 q hd2 hq) (by have := hq1 k d2 q hd2 hq; omega)
      · intro k d2 q hk hd2 hq
        exact hmin k q hk (hps k d2 q hd2 hq) (by have := hq1 k d2 q hd2 hq; omega)
  · intro j
    simp [cellsForDomain]
  · intro j best hne
    simp [cellsForDomain, hne]

/-- Witness for `c5_best_highlight` on the spec's example: domains A, B, C with
positions 3, 1 and absent, reference domain B; the best is B at column 1 and its
cell is emitted once, green only. -/
theorem c5_witness :
    (∃ d, (["sitea.com", "lolcfinance.com", "sitec.com"] : List String)[1]? = some d ∧
      (dictGet [("sitea.com", (some 3, "Page 1 Rank 3")),
                ("lolcfinance.com", (some 1, "Page 1 Rank 1")),
                ("sitec.com", (none, "Not Ranked"))] d (none, "Not Ranked")).1 = some 1) ∧
    cellsForDomain "lolcfinance.com" "lolcfinance.com" (some 1) 0 1 =
      [⟨1, 2, GREEN_COLOR⟩] := by
  have hpos : ∀ d p s, dictGet [("sitea.com", ((some 3 : Option Nat), "Page 1 Rank 3")),
      ("lolcfinance.com", (some 1, "Page 1 Rank 1")),
      ("sitec.com", (none, "Not Ranked"))] d (none, "Not Ranked") = (some p, s) → 1 ≤ p := by
    intro d p s h
    rw [dictGet_cons, dictGet_cons, dictGet_cons] at h
    by_cases h1 : "sitea.com" = d
    · rw [if_pos h1] at h
      simp only [Prod.mk.injEq, Option.some.injEq] at h
      omega
    · rw [if_neg h1] at h
      by_cases h2 : "lolcfinance.com" = d
      · rw [if_pos h2] at h
        simp only [Prod.mk.injEq, Option.some.injEq] at h
        omega
      · rw [if_neg h2] at h
        by_cases h3 : "sitec.com" = d
        · rw [if_pos h3] at h
          simp at h
        · rw [if_neg h3] at h
          have h' : ((none : Option Nat), "Not Ranked") = (some p, s) := h
          simp at h'
  have h := c5_best_highlight
    [("sitea.com", (some 3, "Page 1 Rank 3")),
     ("lolcfinance.com", (some 1, "Page 1 Rank 1")),
     ("sitec.com", (none, "Not Ranked"))]
    ["sitea.com", "lolcfinance.com", "sitec.com"] "lolcfinance.com" 0 hpos
  exact ⟨(h.1 1 1 (by decide)).1, h.2.2.1 1⟩
